import Mathlib

/-!
Verification of the event-extraction module (`mne/event.py`).

The module scans an integer stim-channel matrix for value steps, masks the
digital trigger bits, classifies steps as onsets/offsets under three
"consecutive" policies, and provides an algebra over extracted event lists
(picking, merging, shifting, fixed-interval synthesis, co-occurrence
derivation, concatenation) plus a plain-text persistence codec.

Embedding conventions:
* a numpy `(n, 3)` event/step array is a `List Step`;
* the stim data matrix (`channels x samples`) is a `List (List Int)`;
* numpy int64 values are `Int`; the bitwise operators of `_mask_trigs`
  are modelled at the int64 width by `not64`/`and64` below;
* Python exceptions are an explicit `EventError` in an `Except`;
* the in-place column write of `_mask_trigs` is modelled by a state-passing
  variant returning the caller's buffer contents after the call.
-/

namespace MneEvent

/-- One row of an `(n, 3)` integer array: `[sample, value_before, value_after]`
for step lists, `[sample, paired_value, event_id]` for event lists. -/
structure Step where
  sample : Int
  before : Int
  after  : Int
deriving Repr, DecidableEq, Inhabited

/-- The `output` argument of `find_events`. -/
inductive Output
  | onset
  | offset
  | step
deriving Repr, DecidableEq

/-- The `consecutive` argument of `find_events`: `'increasing'`, `True`, `False`. -/
inductive Consecutive
  | increasing
  | always
  | never
deriving Repr, DecidableEq

/-- The exceptions raised by the module. -/
inductive EventError
  | shortEvents (n : Nat)   -- ValueError of find_events (spurious short events)
  | noEvents                -- RuntimeError "No events found" (pick_events)
  | badColumns              -- ValueError "Unknown number of columns"
  | noTextLines             -- ValueError "No text lines found"
  | emptySynthesis          -- ValueError "No events produced" (make_fixed_length_events)
  | lengthMismatch          -- ValueError of concatenate_events
  | indexError              -- IndexError: offset_idx[-1] on an emptied offset_idx
  | broadcastMismatch       -- ValueError: events[:, 2] = event_id shape mismatch
deriving Repr, DecidableEq

/-- Bitwise AND on `Nat`, recursing over `fuel` binary digits
(a kernel-reducible replacement for `Nat.land`). -/
def natAndF : Nat → Nat → Nat → Nat
  | 0, _, _ => 0
  | f + 1, a, b => (if a % 2 = 1 ∧ b % 2 = 1 then 1 else 0) + 2 * natAndF f (a / 2) (b / 2)

/-- The int64 bit pattern of an integer (two's complement, 64 bits). -/
def u64 (x : Int) : Nat := (x % (2 ^ 64 : Int)).toNat

/-- numpy int64 bitwise AND: combine the 64-bit two's-complement patterns and
reinterpret as a signed value. -/
def and64 (a b : Int) : Int :=
  let r := natAndF 64 (u64 a) (u64 b)
  if r < 2 ^ 63 then (r : Int) else (r : Int) - 2 ^ 64

/-- numpy `bitwise_not` on an integer (two's complement: `~m = -(m+1)`). -/
def not64 (m : Int) : Int := -(m + 1)

/-! ## Step detection (`_find_stim_steps`, lines 309-351) -/

/-- Sample indices at which every channel changes value
(`np.where(np.all(np.diff(data, axis=1) != 0, axis=0))[0]`).
All channels are assumed to share the first channel's length. -/
def stimChanges (data : List (List Int)) : List Nat :=
  let n := (data.headD []).length
  (List.range (n - 1)).filter fun i =>
    data.all fun ch => ch.getD (i + 1) 0 != ch.getD i 0

/-- The raw step rows before padding and merging:
`np.c_[idx + 1 + first_samp, data[0, idx], data[0, idx + 1]]`. -/
def detectedSteps (data : List (List Int)) (first_samp : Int) : List Step :=
  let ch0 := data.headD []
  (stimChanges data).map fun (i : Nat) =>
    ⟨(i : Int) + 1 + first_samp, ch0.getD i 0, ch0.getD (i + 1) 0⟩

/-- `diff = np.diff(steps[:, 0]); idx = (diff <= abs(merge))` at position
`i` (line 333-334). -/
def stepGapLe (steps : List Step) (m : Int) (i : Nat) : Bool :=
  decide ((steps.getD (i + 1) default).sample - (steps.getD i default).sample ≤ m)

/-- The scatter writes of the merge pass (lines 340 and 344): row `j` after
`steps[where + 1, 1] = steps[where, 1]` (`merge > 0`) respectively
`steps[where, 2] = steps[where + 1, 2]` (`merge < 0`).  numpy gathers every
right-hand side from the unmodified array before writing, so all inherited
values are original ones. -/
def mergeModified (steps : List Step) (merge : Int) (j : Nat) : Step :=
  let s := steps.getD j default
  if merge > 0 then
    if 0 < j ∧ stepGapLe steps (merge.natAbs : Int) (j - 1) = true then
      { s with before := (steps.getD (j - 1) default).before }
    else s
  else
    if j + 1 < steps.length ∧ stepGapLe steps (merge.natAbs : Int) j = true then
      { s with after := (steps.getD (j + 1) default).after }
    else s

/-- The `keep` vector of the merge pass (lines 337, 341, 345):
`logical_not(idx)` with `True` appended (`merge > 0`) or prepended
(`merge < 0`). -/
def mergeKeep (steps : List Step) (merge : Int) (j : Nat) : Bool :=
  if merge > 0 then
    decide (j = steps.length - 1) || !stepGapLe steps (merge.natAbs : Int) j
  else decide (j = 0) || !stepGapLe steps (merge.natAbs : Int) (j - 1)

/-- The neighbor-merge pass of `_find_stim_steps` (lines 332-351): when some
adjacent pair is close, apply the scatter writes and keep the rows that both
survive the merge and remain real steps (`keep &= is_step`). -/
def mergeSteps (steps : List Step) (merge : Int) : List Step :=
  if merge = 0 then steps
  else if (List.range (steps.length - 1)).any
      (stepGapLe steps (merge.natAbs : Int)) then
    (List.range steps.length).filterMap fun j =>
      let s := mergeModified steps merge j
      if mergeKeep steps merge j = true ∧ s.before ≠ s.after then some s else none
  else steps

/-- `_find_stim_steps(data, first_samp, pad_start, pad_stop, merge)`:
detect simultaneous steps, return early when there are none, pad the
boundaries, then merge neighbors. -/
def _find_stim_steps (data : List (List Int)) (first_samp : Int)
    (pad_start pad_stop : Option Int) (merge : Int) : List Step :=
  if (stimChanges data).length = 0 then []
  else
    let steps0 := detectedSteps data first_samp
    let steps1 :=
      match pad_start with
      | none => steps0
      | some ps =>
        let v := (steps0.headD default).before
        if v ≠ ps then ⟨0, ps, v⟩ :: steps0 else steps0
    let steps2 :=
      match pad_stop with
      | none => steps1
      | some pz =>
        let v := (steps1.getLastD default).after
        if v ≠ pz then
          steps1 ++ [⟨((data.headD []).length : Int) + first_samp, v, pz⟩]
        else steps1
    mergeSteps steps2 merge

/-- Modelled from the spec: the transition at position `j` after combining
close pairs in a single pass — with `merge > 0` the later member of a close
pair inherits the earlier transition's value_before, with `merge < 0` the
earlier member inherits the later value_after; all inherited values are read
from the original list (no cascading). -/
def specCombined (steps : List Step) (merge : Int) (j : Nat) : Step :=
  if merge > 0 then
    if 0 < j ∧ (steps.getD j default).sample - (steps.getD (j - 1) default).sample
        ≤ (merge.natAbs : Int) then
      { steps.getD j default with before := (steps.getD (j - 1) default).before }
    else steps.getD j default
  else
    if j + 1 < steps.length ∧ (steps.getD (j + 1) default).sample
        - (steps.getD j default).sample ≤ (merge.natAbs : Int) then
      { steps.getD j default with after := (steps.getD (j + 1) default).after }
    else steps.getD j default

/-- Modelled from the spec: whether transition `j` survives the single merge
pass — it must not be the dropped member of a close pair (the earlier member
when `merge > 0`, the later one when `merge < 0`). -/
def specSurvives (steps : List Step) (merge : Int) (j : Nat) : Bool :=
  if merge > 0 then
    !decide (j + 1 < steps.length ∧ (steps.getD (j + 1) default).sample
      - (steps.getD j default).sample ≤ (merge.natAbs : Int))
  else
    !decide (0 < j ∧ (steps.getD j default).sample
      - (steps.getD (j - 1) default).sample ≤ (merge.natAbs : Int))

/-- Modelled from the spec's merging sentence (§4.1): for `merge ≠ 0`, every
pair of consecutive transitions whose sample gap is at most `|merge|` is
combined in a single pass — the dropped members disappear, each survivor
takes its combined values, and afterwards every transition left with
`value_before = value_after` is dropped. -/
def mergeStepsSpec (steps : List Step) (merge : Int) : List Step :=
  (((List.range steps.length).filter (specSurvives steps merge)).map
    (specCombined steps merge)).filter fun s => s.before != s.after

/-! ## Masking (`_mask_trigs`, lines 629-642) -/

/-- `np.bitwise_and(value, np.bitwise_not(mask))` applied to both value
columns of one row. -/
def maskRow (mask : Int) (e : Step) : Step :=
  ⟨e.sample, and64 e.before (not64 mask), and64 e.after (not64 mask)⟩

/-- The value computed by `_mask_trigs` once the `isinstance(mask, int)`
check has passed: on a nonempty list, AND the complement of the mask into
both value columns and drop rows whose two values collide. -/
def maskTrigsBody (events : List Step) (mask : Int) : List Step :=
  if events.length = 0 then events
  else (events.map (maskRow mask)).filter fun e => e.before != e.after

/-- `_mask_trigs(events, mask)`. The `TypeError` branch tests
`isinstance(mask, int)`, which always holds for `mask : Int`, so the embedding
never reaches it. -/
def _mask_trigs (events : List Step) (mask : Int) : Except EventError (List Step) :=
  .ok (maskTrigsBody events mask)

/-- State-passing view of `_mask_trigs`: the first component is the caller's
array after the call.  Line 639 (`events[:, 1:] = np.bitwise_and(...)`)
writes the masked columns back into the input buffer whenever the list is
nonempty; the empty branch returns a copy and leaves the input alone. -/
def maskTrigsState (events : List Step) (mask : Int) : List Step × List Step :=
  if events.length = 0 then (events, events)
  else
    let mutated := events.map (maskRow mask)
    (mutated, mutated.filter fun e => e.before != e.after)

/-! ## Event extraction (`_find_events`, lines 409-477; `find_events`) -/

/-- The onset predicate for one step row (lines 434-443). -/
def onsetPred (c : Consecutive) (e : Step) : Bool :=
  match c with
  | .increasing => decide (e.after > e.before)
  | .always => decide (e.after > 0)
  | .never => e.before == 0

/-- The offset predicate for one step row (lines 434-443). -/
def offsetPred (c : Consecutive) (e : Step) : Bool :=
  match c with
  | .increasing => (decide (e.after > e.before) || e.after == 0) && decide (e.before > 0)
  | .always => decide (e.before > 0)
  | .never => e.after == 0

/-- `_find_events(data, first_samp, output, consecutive, min_samples, mask,
uint_cast)`.  `min_samples` is modelled as an integer sample count, for which
the float computation `int(min_samples // 1)` followed by the equality test
amounts to subtracting one.  The `uint16` cast and the negative-value
rectification precede detection (`data.min()` presumes at least one sample,
which the Raw interface guarantees); the step detector runs with `pad_stop=0`
and merge as computed; masking, onset/offset classification, orphan trimming
and output shaping follow.  Two crash paths of the source are modelled as
errors: line 456 reads `offset_idx[-1]` and raises `IndexError` when
deleting the leading orphaned offset has emptied `offset_idx`, and in offset
mode the assignment `events[:, 2] = event_id` (line 469) raises a broadcast
`ValueError` when the onset count neither equals the offset count nor is 1
(a length-1 `event_id` broadcasts over all offset rows). -/
def _find_events (data : List (List Int)) (first_samp : Int) (output : Output)
    (consecutive : Consecutive) (min_samples : Int) (mask : Int)
    (uint_cast : Bool) : Except EventError (List Step) :=
  let merge := if min_samples > 0 then min_samples - 1 else 0
  let data := if uint_cast then data.map (·.map (fun x => x.emod 65536)) else data
  let data := if data.any (·.any (· < 0)) then data.map (·.map (|·|)) else data
  let events := _find_stim_steps data first_samp none (some 0) merge
  let events := maskTrigsBody events mask
  let onset_idx := (List.range events.length).filter fun i =>
    onsetPred consecutive (events.getD i default)
  let offset_idx := (List.range events.length).filter fun i =>
    offsetPred consecutive (events.getD i default)
  if onset_idx.length = 0 ∨ offset_idx.length = 0 then .ok []
  else
    let offset_idx :=
      if onset_idx.headD 0 > offset_idx.headD 0 then offset_idx.tail else offset_idx
    if offset_idx.length = 0 then .error .indexError
    else
      let onset_idx :=
        if onset_idx.getLastD 0 > offset_idx.getLastD 0 then onset_idx.dropLast
        else onset_idx
      match output with
      | .onset => .ok (onset_idx.map fun i => events.getD i default)
      | .step =>
        .ok (((List.range events.length).filter fun i =>
          onset_idx.contains i || offset_idx.contains i).map fun i =>
            events.getD i default)
      | .offset =>
        let event_id := onset_idx.map fun i => (events.getD i default).after
        let evs := offset_idx.map fun i => events.getD i default
        if event_id.length = evs.length then
          .ok (List.zipWith (fun (ev : Step) (id : Int) =>
            ⟨ev.sample - 1, ev.after, id⟩) evs event_id)
        else if event_id.length = 1 then
          .ok (evs.map fun ev => ⟨ev.sample - 1, ev.after, event_id.headD 0⟩)
        else .error .broadcastMismatch

/-- The `n_short_events` count of `find_events` (line 618):
`np.sum(np.diff(events[:, 0]) < shortest_event)` over the built output. -/
def nShortEvents (events : List Step) (shortest_event : Int) : Nat :=
  ((List.range (events.length - 1)).filter fun i =>
    decide ((events.getD (i + 1) default).sample - (events.getD i default).sample
      < shortest_event)).length

/-- `find_events` (lines 480-626) on already-extracted channel data: run
`_find_events` (whose exceptions propagate), then raise when any adjacent
rows of the produced output are closer than `shortest_event` samples, naming
the count. -/
def find_events (data : List (List Int)) (first_samp : Int) (output : Output)
    (consecutive : Consecutive) (min_samples : Int) (mask : Int)
    (uint_cast : Bool) (shortest_event : Int) : Except EventError (List Step) :=
  match _find_events data first_samp output consecutive min_samples mask uint_cast with
  | .error e => .error e
  | .ok events =>
    let n_short := nShortEvents events shortest_event
    if n_short > 0 then .error (.shortEvents n_short) else .ok events

/-- Spec-side count of short gaps: adjacent pairs of the output list whose
sample distance is below `shortest_event`. -/
def adjacentShortCount (events : List Step) (shortest_event : Int) : Nat :=
  ((events.zip events.tail).filter fun p =>
    decide (p.2.sample - p.1.sample < shortest_event)).length

/-! ## Event selection (`pick_events`, lines 23-72) -/

/-- `pick_events(events, include, exclude, step)`: an include list keeps rows
whose id (and, with `step`, paired value) matches some listed id; otherwise an
exclude list drops such rows; otherwise the list is copied.  An empty result
raises `RuntimeError("No events found")`. -/
def pick_events (events : List Step) (incl excl : Option (List Int))
    (step : Bool) : Except EventError (List Step) :=
  let events :=
    match incl, excl with
    | some is, _ =>
      events.filter fun e => is.any fun i => e.after == i || (step && e.before == i)
    | none, some es =>
      events.filter fun e => es.all fun i => e.after != i && (!step || e.before != i)
    | none, none => events
  if events.length = 0 then .error .noEvents else .ok events

/-! ## Co-occurrence events (`define_target_events`, lines 75-146) -/

/-- `events[(events[:, 0] > lower) & (events[:, 0] < upper) &
(events[:, 2] == target_id)]`. -/
def targetMatch (events : List Step) (target_id lower upper : Int) : List Step :=
  events.filter fun r =>
    decide (lower < r.sample) && (decide (r.sample < upper) && (r.after == target_id))

/-- Whether a row contributes a nonzero entry to a flattened numpy array
(`arr.any()` truthiness). -/
def rowNonzero (e : Step) : Bool :=
  e.sample != 0 || e.before != 0 || e.after != 0

/-- The main loop of `define_target_events` (lines 122-135): each row carrying
`reference_id` is looked up in the open window, relabeled and paired with its
signed lag on a match (`res.any()` numpy truthiness: some matched row must
have a nonzero entry), relabeled to `fill_na` with a missing lag (`np.nan`,
here `none`) when `fill_na` is set, and dropped otherwise. -/
def targetLoop (events : List Step) (reference_id target_id imin imax : Int)
    (nid : Int) (fill_na : Option Int) : List (Step × Option Int) :=
  events.filterMap fun e =>
    if e.after == reference_id then
      let res := targetMatch events target_id (e.sample + imin) (e.sample + imax)
      if res.any rowNonzero then
        some ({ e with after := nid }, some (e.sample - (res.headD default).sample))
      else
        match fill_na with
        | some f => some ({ e with after := f }, none)
        | none => none
    else none

/-- `define_target_events(events, reference_id, target_id, sfreq, tmin, tmax,
new_id, fill_na)`.  The window offsets `imin = int(tmin * sfreq)` and
`imax = int(tmax * sfreq)` are taken as already-computed integer sample
offsets (the float product and truncation happen outside the model); lags are
kept in absolute sample units (`np.abs(lag)`) — the published value is this
times the positive scalar `1e3 / sfreq`.  The trailing `.any()` guards empty
the event list when every row is all-zero and the lag list when every lag is
zero and none is `nan`. -/
def define_target_events (events : List Step) (reference_id target_id : Int)
    (imin imax : Int) (new_id : Option Int) (fill_na : Option Int) :
    List Step × List (Option Nat) :=
  let nid := new_id.getD reference_id
  let l := targetLoop events reference_id target_id imin imax nid fill_na
  let new_events := l.map Prod.fst
  let lag := l.map fun p => p.2.map Int.natAbs
  let evOut := if new_events.any rowNonzero then new_events else []
  let lagOut := if lag.any (fun o => o.isNone || o.getD 0 != 0) then lag else []
  (evOut, lagOut)

/-! ## Text persistence (`write_events` line 302-306, `read_events` 242-266) -/

/-- The plain-text writer: one `"%6d %6d %3d"` line per event.  The numeric
content of the file is modelled as a list of integer rows (the fixed-width
formatting and whitespace parsing are inverse on integers). -/
def write_events_text (event_list : List Step) : List (List Int) :=
  event_list.map fun e => [e.sample, e.before, e.after]

/-- `np.uint32` cast applied by `read_events` after the float64 parse. -/
def u32cast (x : Int) : Int := x % (2 ^ 32 : Int)

/-- The text branch of `read_events` with default `include`/`exclude`/`mask`:
parse rows (four-column legacy files drop the old time column), cast to
`uint32`, discard a leading line whose id is zero, run `pick_events` (raising
when nothing is left) and `_mask_trigs` with mask 0. -/
def read_events_text (lines : List (List Int)) : Except EventError (List Step) :=
  if lines.length = 0 then .error .noTextLines
  else
    let ncols := (lines.headD []).length
    let goods : Option (Nat × Nat × Nat) :=
      if ncols = 4 then some (0, 2, 3)
      else if ncols = 3 then some (0, 1, 2)
      else none
    match goods with
    | none => .error .badColumns
    | some (a, b, c) =>
      let event_list : List Step := lines.map fun l =>
        ⟨u32cast (l.getD a 0), u32cast (l.getD b 0), u32cast (l.getD c 0)⟩
      let event_list :=
        if event_list.length > 0 ∧ (event_list.headD default).after = 0 then
          event_list.tail
        else event_list
      match pick_events event_list none none false with
      | .error e => .error e
      | .ok el => _mask_trigs el 0

/-! ## Merging ids (`merge_events`, lines 645-703) -/

/-- Whether a row's paired value or id matches some merged id (the row
indices collected in `idx_touched`). -/
def touchedRow (ids : List Int) (e : Step) : Bool :=
  ids.any fun i => e.before == i || e.after == i

/-- The relabeling performed on `events_out`: each column-1/column-2 value
equal to some merged id becomes `new_id` (all masks are computed against the
original array, so the writes never chain). -/
def relabelRow (ids : List Int) (new_id : Int) (e : Step) : Step :=
  ⟨e.sample,
   if ids.contains e.before then new_id else e.before,
   if ids.contains e.after then new_id else e.after⟩

/-- The ascending lexicographic order of
`events_out[np.lexsort(events_out.T[::-1])]`: primary key sample, then paired
value, then id, each ascending. -/
def lexLe (a b : Step) : Prop :=
  a.sample < b.sample ∨ (a.sample = b.sample ∧
    (a.before < b.before ∨ (a.before = b.before ∧ a.after ≤ b.after)))

instance : DecidableRel lexLe := fun a b => by unfold lexLe; infer_instance

instance : IsTrans Step lexLe := ⟨by
  intro a b c hab hbc
  unfold lexLe at *
  rcases hab with h | ⟨e1, h | ⟨e2, h⟩⟩ <;> rcases hbc with g | ⟨f1, g | ⟨f2, g⟩⟩ <;>
    first
      | exact Or.inl (by omega)
      | exact Or.inr ⟨by omega, Or.inl (by omega)⟩
      | exact Or.inr ⟨by omega, Or.inr ⟨by omega, by omega⟩⟩⟩

instance : IsTotal Step lexLe := ⟨by
  intro a b
  unfold lexLe
  rcases lt_trichotomy a.sample b.sample with h | h | h
  · exact Or.inl (Or.inl h)
  · rcases lt_trichotomy a.before b.before with h2 | h2 | h2
    · exact Or.inl (Or.inr ⟨h, Or.inl h2⟩)
    · rcases le_total a.after b.after with h3 | h3
      · exact Or.inl (Or.inr ⟨h, Or.inr ⟨h2, h3⟩⟩)
      · exact Or.inr (Or.inr ⟨h.symm, Or.inr ⟨h2.symm, h3⟩⟩)
    · exact Or.inr (Or.inr ⟨h.symm, Or.inl h2⟩)
  · exact Or.inr (Or.inl h)⟩

/-- `merge_events(events, ids, new_id, replace_events)`: relabel every
matching paired value and id; without `replace_events` the touched original
rows are appended and the result is re-sorted (np.lexsort is a stable
ascending sort, modelled by the stable `insertionSort`). -/
def merge_events (events : List Step) (ids : List Int) (new_id : Int)
    (replace_events : Bool) : List Step :=
  let events_out := events.map (relabelRow ids new_id)
  if replace_events then events_out
  else
    let touched := events.filter (touchedRow ids)
    (events_out ++ touched).insertionSort lexLe

/-- The descending order the specification ascribes to the merged list:
sample ascending, then paired value descending, then id descending. -/
def lexLeSpecDesc (a b : Step) : Prop :=
  a.sample < b.sample ∨ (a.sample = b.sample ∧
    (b.before < a.before ∨ (b.before = a.before ∧ b.after ≤ a.after)))

instance : DecidableRel lexLeSpecDesc := fun a b => by unfold lexLeSpecDesc; infer_instance

/-! ## Shifting (`shift_time_events`, lines 706-729) -/

/-- `shift_time_events(events, ids, tshift, sfreq)` on a copy of the input:
for each listed id in turn, add the sample delta (`int(tshift * sfreq)`,
taken as an integer here) to every row carrying that id. -/
def shift_time_events (events : List Step) (ids : List Int) (delta : Int) :
    List Step :=
  ids.foldl (fun evs ii =>
    evs.map fun e => if e.after == ii then { e with sample := e.sample + delta } else e)
    events

/-! ## Fixed-interval synthesis (`make_fixed_length_events`, lines 732-783) -/

/-- `np.arange(a, b, step)` on integers with a positive step: numpy computes
the length `ceil((b - a) / step)` up front and fills multiples of the step. -/
def arangeInt (a b step : Int) : List Int :=
  (List.range ((b - a + step - 1) / step).toNat).map fun (k : Nat) =>
    a + (k : Int) * step

/-- The effective start index of `make_fixed_length_events`
(`start + raw.first_samp` when `first_samp=True`). -/
def fixedStart (first_samp start : Int) (useFirstSamp : Bool) : Int :=
  if useFirstSamp then start + first_samp else start

/-- The effective stop bound of `make_fixed_length_events` before the
interval truncation: the given stop (default `raw.last_samp + 1`) clipped to
`raw.last_samp + 1` (with `first_samp=True`) or to `len(raw.times)`. -/
def fixedStop (first_samp last_samp : Int) (stop? : Option Int)
    (useFirstSamp : Bool) : Int :=
  let stop0 := match stop? with | some s => s | none => last_samp + 1
  if useFirstSamp then min (stop0 + first_samp) (last_samp + 1)
  else min stop0 (last_samp - first_samp + 1)

/-- `make_fixed_length_events(raw, id, start, stop, duration, first_samp)`.
`start` and `stop` are taken as sample indices (`raw.time_as_index` is the
collaborator's float conversion), and `interval` is the integer sample count
`sfreq * duration` (for which `int(np.ceil(sfreq * duration))` is the value
itself).  `raw.last_samp + 1` is the default stop, `len(raw.times)` is
`last_samp - first_samp + 1`, and the `isinstance(id, int)` check always
holds for `id : Int`. -/
def make_fixed_length_events (first_samp last_samp : Int) (id : Int)
    (start : Int) (stop? : Option Int) (interval : Int) (useFirstSamp : Bool) :
    Except EventError (List Step) :=
  let start1 := fixedStart first_samp start useFirstSamp
  let stop1 := fixedStop first_samp last_samp stop? useFirstSamp
  let stop2 := stop1 - interval
  let ts := arangeInt start1 (stop2 + 1) interval
  if ts.length = 0 then .error .emptySynthesis
  else .ok (ts.map fun t => ⟨t, 0, id⟩)

/-- The index sequence the claim describes for the default stop: multiples of
the interval from `start`, inclusively bounded by the recording's last sample
index truncated by one interval. -/
def claimFixedIndices (last_samp start interval : Int) : List Int :=
  arangeInt start (last_samp - interval + 1) interval

/-! ## Concatenation (`concatenate_events`, lines 786-828) -/

/-- Cumulative sums (`np.cumsum`). -/
def cumsumInt (l : List Int) : List Int :=
  (l.scanl (· + ·) 0).tail

/-- `concatenate_events(events, first_samps, last_samps)`: after the length
check, every later list is re-based by `- first_samp + n_prior + first_samps[0]`
and appended. -/
def concatenate_events (evls : List (List Step)) (first_samps last_samps : List Int) :
    Except EventError (List Step) :=
  if ¬ (evls.length = last_samps.length ∧ evls.length = first_samps.length) then
    .error .lengthMismatch
  else
    let n_samps := cumsumInt ((last_samps.zip first_samps).map fun p => p.1 - p.2 + 1)
    let triples := evls.tail.zip (first_samps.tail.zip n_samps.dropLast)
    .ok (triples.foldl (fun acc t =>
      acc ++ t.1.map fun ev =>
        { ev with sample := ev.sample - t.2.1 + t.2.2 + first_samps.headD 0 })
      (evls.headD []))

/-! ## State-passing views (which argument buffers a call writes) -/

/-- `pick_events` never writes into its argument (boolean indexing and
`np.copy` allocate): the caller's buffer after the call, with the result. -/
def pickEventsState (events : List Step) (incl excl : Option (List Int))
    (step : Bool) : List Step × Except EventError (List Step) :=
  (events, pick_events events incl excl step)

/-- `merge_events` copies (`events_out = events.copy()`) and writes only the
copy. -/
def mergeEventsState (events : List Step) (ids : List Int) (new_id : Int)
    (replace_events : Bool) : List Step × List Step :=
  (events, merge_events events ids new_id replace_events)

/-- `shift_time_events` copies (`events = events.copy()`) before shifting. -/
def shiftTimeEventsState (events : List Step) (ids : List Int) (delta : Int) :
    List Step × List Step :=
  (events, shift_time_events events ids delta)

/-- `define_target_events` iterates over `events.copy()` and only reads the
original. -/
def defineTargetEventsState (events : List Step) (reference_id target_id : Int)
    (imin imax : Int) (new_id : Option Int) (fill_na : Option Int) :
    List Step × (List Step × List (Option Nat)) :=
  (events, define_target_events events reference_id target_id imin imax new_id fill_na)

/-- `concatenate_events` copies each later list (`e2 = e.copy()`) and never
writes the first (concatenation allocates). -/
def concatenateEventsState (evls : List (List Step)) (first_samps last_samps : List Int) :
    List (List Step) × Except EventError (List Step) :=
  (evls, concatenate_events evls first_samps last_samps)

instance : DecidableEq (Except EventError (List Step)) := fun a b =>
  match a, b with
  | .ok x, .ok y => if h : x = y then isTrue (by simp [h]) else isFalse (by simp [h])
  | .error x, .error y => if h : x = y then isTrue (by simp [h]) else isFalse (by simp [h])
  | .ok _, .error _ => isFalse (by simp)
  | .error _, .ok _ => isFalse (by simp)

/-- The documented example channel `[0, 32, 32, 33, 32, 0]`. -/
def exampleData : List (List Int) := [[0, 32, 32, 33, 32, 0]]

set_option maxRecDepth 40000

/-! ## Theorems -/

/-- Claim C1 (counterexample): on the documented channel
`[0, 32, 32, 33, 32, 0]` with `first_samp = 0`, `find_events` with
`consecutive=True` and its default `shortest_event = 2` does not return
`[[1,0,32],[3,32,33],[4,33,32]]` — the 1-sample gap between samples 3 and 4
trips the spurious-short-event check and the call raises `ValueError` naming
one short event. -/
theorem c1_counterexample :
    find_events exampleData 0 .onset .always 0 0 false 2
      = .error (.shortEvents 1) := by
  decide

/-- Claim C1 (amended): the extraction itself (`_find_events`, before the
`shortest_event` validation of `find_events`) produces exactly the five
documented outputs on the channel `[0, 32, 32, 33, 32, 0]`; through
`find_events` with the default `shortest_event = 2` only the
`consecutive='increasing'` and `consecutive=False` variants are returned,
while the `consecutive=True` onset, offset and step variants raise
`ValueError` with the offending counts 1, 2 and 2. -/
theorem c1_amended :
    _find_events exampleData 0 .onset .increasing 0 0 false
        = .ok [⟨1, 0, 32⟩, ⟨3, 32, 33⟩] ∧
    _find_events exampleData 0 .onset .never 0 0 false
        = .ok [⟨1, 0, 32⟩] ∧
    _find_events exampleData 0 .onset .always 0 0 false
        = .ok [⟨1, 0, 32⟩, ⟨3, 32, 33⟩, ⟨4, 33, 32⟩] ∧
    _find_events exampleData 0 .offset .always 0 0 false
        = .ok [⟨2, 33, 32⟩, ⟨3, 32, 33⟩, ⟨4, 0, 32⟩] ∧
    _find_events exampleData 0 .step .always 0 0 false
        = .ok [⟨1, 0, 32⟩, ⟨3, 32, 33⟩, ⟨4, 33, 32⟩, ⟨5, 32, 0⟩] ∧
    find_events exampleData 0 .onset .increasing 0 0 false 2
        = .ok [⟨1, 0, 32⟩, ⟨3, 32, 33⟩] ∧
    find_events exampleData 0 .onset .never 0 0 false 2
        = .ok [⟨1, 0, 32⟩] ∧
    find_events exampleData 0 .offset .always 0 0 false 2
        = .error (.shortEvents 2) ∧
    find_events exampleData 0 .step .always 0 0 false 2
        = .error (.shortEvents 2) := by
  exact ⟨by decide, by decide, by decide, by decide, by decide,
         by decide, by decide, by decide, by decide⟩

/-- Claim C2 (counterexample): on the channel `[0, 5, 0]` with
`output='step'` and `shortest_event = 2` the output is
`[[1,0,5],[2,5,0]]`, whose single onset row admits no pair of consecutive
onset events at all — yet `find_events` raises `ValueError` counting one
short event, because the validation measures gaps between ALL adjacent rows
of the built output (here an onset followed by its offset), not between
onset events only. -/
theorem c2_counterexample :
    _find_events [[0, 5, 0]] 0 .step .increasing 0 0 false
        = .ok [⟨1, 0, 5⟩, ⟨2, 5, 0⟩] ∧
    [Step.mk 1 0 5, Step.mk 2 5 0].filter (onsetPred .increasing)
        = [⟨1, 0, 5⟩] ∧
    find_events [[0, 5, 0]] 0 .step .increasing 0 0 false 2
      = .error (.shortEvents 1) := by
  exact ⟨by decide, by decide, by decide⟩

/-- The orphan-trimming `IndexError` is reachable: on two channels
`[1,8,0,3,8,0,0]` and `[0,1,1,2,2,3,3]` with mask 8, the post-mask rows are
`[[1,1,0],[3,0,3]]`, the only offset precedes the only onset, deleting it
empties `offset_idx`, and line 456's `offset_idx[-1]` raises. -/
theorem findEvents_orphan_indexError :
    _find_events [[1, 8, 0, 3, 8, 0, 0], [0, 1, 1, 2, 2, 3, 3]] 0 .onset
        .increasing 0 8 false
      = .error .indexError := by
  decide

/-- The offset-mode broadcast `ValueError` is reachable with the default
mask: on two channels `[0,3,0,5,0]` and `[0,1,1,2,3]` the rows are
`[[1,0,3],[3,0,5],[4,5,0]]` with two onsets and one offset and nothing
trimmed, so assigning the length-2 `event_id` into the single offset row
raises at line 469. -/
theorem findEvents_offset_broadcast_error :
    _find_events [[0, 3, 0, 5, 0], [0, 1, 1, 2, 3]] 0 .offset .increasing 0 0
        false
      = .error .broadcastMismatch := by
  decide

/-- The index-based short-gap count of `find_events` agrees with the count
over adjacent pairs of the output list. -/
theorem nShort_eq_adjacent (events : List Step) (se : Int) :
    nShortEvents events se = adjacentShortCount events se := by
  induction events with
  | nil => rfl
  | cons a t ih =>
    cases t with
    | nil => rfl
    | cons b t2 =>
      unfold nShortEvents adjacentShortCount at *
      simp only [List.length_cons, Nat.add_sub_cancel, List.range_succ_eq_map,
        List.filter_cons, List.filter_map, List.zip_cons_cons, List.tail_cons,
        List.getD_cons_zero, List.getD_cons_succ] at *
      rw [List.filter_congr (q := fun i =>
        decide (((t2 : List Step).getD i default).sample
          - (((b :: t2) : List Step).getD i default).sample < se))
        (fun i _ => by simp [Function.comp, List.getD_cons_succ])]
      simp only [List.getD_eq_getElem?_getD] at ih ⊢
      by_cases h : b.sample - a.sample < se <;> simp [h, ih]

/-- Claim C2 (amended): any exception of the extraction itself (the
orphan-trimming `IndexError` or the offset-mode broadcast `ValueError`)
propagates out of `find_events` unchanged; when the extraction succeeds,
`find_events` raises the spurious-short-event `ValueError` exactly when some
two ADJACENT ROWS of the built output — whatever their onset/offset role —
are closer than `shortest_event` samples, naming the number of such adjacent
pairs, and returns the built output otherwise. -/
theorem c2_amended (data : List (List Int)) (first_samp : Int)
    (output : Output) (consecutive : Consecutive) (min_samples mask : Int)
    (uint_cast : Bool) (shortest_event : Int) :
    find_events data first_samp output consecutive min_samples mask uint_cast
        shortest_event
      = match _find_events data first_samp output consecutive min_samples mask
          uint_cast with
        | .error e => .error e
        | .ok evs =>
          if adjacentShortCount evs shortest_event = 0 then .ok evs
          else .error (.shortEvents (adjacentShortCount evs shortest_event)) := by
  unfold find_events
  cases h : _find_events data first_samp output consecutive min_samples mask
      uint_cast with
  | error e => rfl
  | ok evs =>
    dsimp only
    rw [nShort_eq_adjacent]
    by_cases hc : adjacentShortCount evs shortest_event = 0 <;>
      simp [hc, Nat.pos_iff_ne_zero]

/-- Reading every position of a list back off by index is the identity. -/
theorem range_map_getD {α : Type} (l : List α) (d : α) :
    (List.range l.length).map (fun j => l.getD j d) = l := by
  induction l with
  | nil => rfl
  | cons a t ih =>
    rw [List.length_cons, List.range_succ_eq_map, List.map_cons, List.map_map]
    have hc : ((fun j => (a :: t).getD j d) ∘ Nat.succ) = fun j => t.getD j d :=
      funext fun j => rfl
    rw [hc, ih]
    rfl

/-- The keep-and-is-step `filterMap` of the merge pass as a
filter-map-filter pipeline. -/
theorem filterMap_keep_split (keep : Nat → Bool) (f : Nat → Step) (l : List Nat) :
    (l.filterMap fun j =>
        if keep j = true ∧ (f j).before ≠ (f j).after then some (f j) else none)
      = ((l.filter keep).map f).filter fun s => s.before != s.after := by
  induction l with
  | nil => rfl
  | cons a t ih =>
    rw [List.filterMap_cons, List.filter_cons]
    by_cases h1 : keep a
    · by_cases h2 : (f a).before = (f a).after <;>
        simp [h1, h2, ih, List.filter_cons]
    · simp [h1, ih]

/-- The scatter writes compute exactly the spec's combined transition. -/
theorem mergeModified_eq_specCombined (steps : List Step) (merge : Int) :
    mergeModified steps merge = specCombined steps merge := by
  funext j
  unfold mergeModified specCombined stepGapLe
  dsimp only
  by_cases hp : merge > 0
  · rw [if_pos hp, if_pos hp]
    apply if_congr _ rfl rfl
    apply and_congr_right
    intro h1
    have hj : j - 1 + 1 = j := by omega
    rw [hj]
    exact decide_eq_true_iff
  · rw [if_neg hp, if_neg hp]
    apply if_congr _ rfl rfl
    apply and_congr_right
    intro h1
    exact decide_eq_true_iff

/-- The `keep` vector marks exactly the spec's surviving transitions. -/
theorem mergeKeep_eq_specSurvives (steps : List Step) (merge : Int) :
    ∀ j ∈ List.range steps.length, mergeKeep steps merge j = specSurvives steps merge j := by
  intro j hj
  rw [List.mem_range] at hj
  unfold mergeKeep specSurvives stepGapLe
  by_cases hp : merge > 0
  · rw [if_pos hp, if_pos hp]
    by_cases h1 : j + 1 < steps.length
    · have hne : j ≠ steps.length - 1 := by omega
      by_cases h2 : (steps.getD (j + 1) default).sample
          - (steps.getD j default).sample ≤ (merge.natAbs : Int)
      · simp [hne, h1, h2]
      · simp [hne, h1, h2]
    · have heq : j = steps.length - 1 := by omega
      simp [heq, h1]
      omega
  · rw [if_neg hp, if_neg hp]
    by_cases h0 : 0 < j
    · have hj1 : j - 1 + 1 = j := by omega
      rw [hj1]
      have hne : j ≠ 0 := by omega
      by_cases h2 : (steps.getD j default).sample
          - (steps.getD (j - 1) default).sample ≤ (merge.natAbs : Int)
      · simp [hne, h0, h2]
      · simp [hne, h0, h2]
    · have hj0 : j = 0 := by omega
      subst hj0
      simp

/-- Claim C3: for `merge ≠ 0` and a list of genuine transitions
(`value_before ≠ value_after`, as the detector and padding produce), the
merge pass equals the spec's description: one pass over the original list
combining each close pair — later survivor inheriting the earlier
value_before for `merge > 0`, earlier survivor inheriting the later
value_after for `merge < 0`, inherited values read from the unmodified list
so no cascade — followed by dropping degenerate transitions. -/
theorem c3_merge_single_pass (steps : List Step) (merge : Int) (hm : merge ≠ 0)
    (hdeg : ∀ s ∈ steps, s.before ≠ s.after) :
    mergeSteps steps merge = mergeStepsSpec steps merge := by
  unfold mergeSteps mergeStepsSpec
  rw [if_neg hm]
  by_cases hany : (List.range (steps.length - 1)).any (stepGapLe steps (merge.natAbs : Int))
  · rw [if_pos hany]
    rw [filterMap_keep_split (mergeKeep steps merge) (mergeModified steps merge)]
    rw [List.filter_congr (mergeKeep_eq_specSurvives steps merge)]
    rw [mergeModified_eq_specCombined]
  · rw [if_neg hany]
    have hnog : ∀ i ∈ List.range (steps.length - 1),
        stepGapLe steps (merge.natAbs : Int) i = false := by
      intro i hi
      by_contra hc
      exact hany (List.any_eq_true.mpr ⟨i, hi, by simpa using hc⟩)
    have hsurv : ∀ j ∈ List.range steps.length, specSurvives steps merge j = true := by
      intro j hj
      rw [List.mem_range] at hj
      unfold specSurvives
      by_cases hp : merge > 0
      · rw [if_pos hp]
        simp only [Bool.not_eq_true']
        rw [decide_eq_false_iff_not]
        rintro ⟨h1, h2⟩
        have := hnog j (List.mem_range.mpr (by omega))
        unfold stepGapLe at this
        simp only [decide_eq_false_iff_not] at this
        exact this h2
      · rw [if_neg hp]
        simp only [Bool.not_eq_true']
        rw [decide_eq_false_iff_not]
        rintro ⟨h1, h2⟩
        have := hnog (j - 1) (List.mem_range.mpr (by omega))
        unfold stepGapLe at this
        simp only [decide_eq_false_iff_not] at this
        have hj1 : j - 1 + 1 = j := by omega
        rw [hj1] at this
        exact this h2
    have hcomb : ∀ j ∈ List.range steps.length,
        specCombined steps merge j = steps.getD j default := by
      intro j hj
      rw [List.mem_range] at hj
      unfold specCombined
      by_cases hp : merge > 0
      · rw [if_pos hp, if_neg]
        rintro ⟨h1, h2⟩
        have := hnog (j - 1) (List.mem_range.mpr (by omega))
        unfold stepGapLe at this
        simp only [decide_eq_false_iff_not] at this
        have hj1 : j - 1 + 1 = j := by omega
        rw [hj1] at this
        exact this h2
      · rw [if_neg hp, if_neg]
        rintro ⟨h1, h2⟩
        have := hnog j (List.mem_range.mpr (by omega))
        unfold stepGapLe at this
        simp only [decide_eq_false_iff_not] at this
        exact this h2
    rw [List.filter_eq_self.mpr hsurv]
    rw [List.map_congr_left hcomb]
    rw [range_map_getD]
    rw [List.filter_eq_self.mpr]
    intro s hs
    simpa [bne_iff_ne] using hdeg s hs

/-- Witness for C3: two close steps with `merge = 1` collapse onto the later
one, which inherits the earlier before-value. -/
theorem c3_witness :
    (1 : Int) ≠ 0 ∧ (∀ s ∈ [Step.mk 1 0 5, Step.mk 2 5 6], s.before ≠ s.after) ∧
    mergeSteps [⟨1, 0, 5⟩, ⟨2, 5, 6⟩] 1 = mergeStepsSpec [⟨1, 0, 5⟩, ⟨2, 5, 6⟩] 1 :=
  ⟨by decide, by decide,
    c3_merge_single_pass [⟨1, 0, 5⟩, ⟨2, 5, 6⟩] 1 (by decide) (by decide)⟩


/-- Claim C4 (counterexample): `merge_events([[0,0,1],[0,0,2]], [1], 5,
replace_events=False)` returns `[[0,0,1],[0,0,2],[0,0,5]]` — `np.lexsort` on
the reversed transpose sorts every column ascending, and this list violates
the claimed (sample, paired-value-descending, id-descending) order. -/
theorem c4_counterexample :
    merge_events [⟨0, 0, 1⟩, ⟨0, 0, 2⟩] [1] 5 false
        = [⟨0, 0, 1⟩, ⟨0, 0, 2⟩, ⟨0, 0, 5⟩] ∧
    ¬ List.Pairwise lexLeSpecDesc [Step.mk 0 0 1, Step.mk 0 0 2, Step.mk 0 0 5] := by
  exact ⟨by decide, by decide⟩

/-- An untouched row (no merged id in either value column) is unchanged by
the relabeling pass. -/
theorem relabel_of_not_touched {ids : List Int} {nid : Int} {e : Step}
    (h : touchedRow ids e = false) : relabelRow ids nid e = e := by
  unfold touchedRow at h
  unfold relabelRow
  simp only [List.any_eq_false] at h
  have hb : e.before ∉ ids := fun hm => by simpa using h _ hm
  have ha : e.after ∉ ids := fun hm => by simpa using h _ hm
  simp [List.contains, List.elem_eq_mem, hb, ha]

/-- The pre-sort concatenation of `merge_events` with `replace_events=False`
is, as a multiset, the original rows plus a relabeled copy of each touched
row. -/
theorem relabel_append_perm (events : List Step) (ids : List Int) (nid : Int) :
    (events.map (relabelRow ids nid) ++ events.filter (touchedRow ids)).Perm
      (events ++ (events.filter (touchedRow ids)).map (relabelRow ids nid)) := by
  induction events with
  | nil => simp
  | cons e t ih =>
    by_cases h : touchedRow ids e
    · simp only [List.map_cons, List.filter_cons, h, if_pos, List.cons_append]
      exact ((List.Perm.cons _ List.perm_middle).trans
        ((List.Perm.swap _ _ _).trans
          ((List.Perm.cons _ (List.Perm.cons _ ih)).trans
            (List.Perm.cons _ List.perm_middle.symm))))
    · simp only [Bool.not_eq_true] at h
      simp [List.filter_cons, h, relabel_of_not_touched h]
      exact ih

/-- Claim C4 (amended): with `replace_events=True`, `merge_events` relabels
every matching paired value / id to `new_id` and keeps the row count; with
`replace_events=False` the result is, up to order, the original rows plus a
relabeled copy of each touched row (row count = original + touched), and it
is sorted ASCENDING lexicographically by (sample, paired value, id) — not by
the claimed descending paired-value/id order. -/
theorem c4_amended (events : List Step) (ids : List Int) (new_id : Int) :
    merge_events events ids new_id true = events.map (relabelRow ids new_id) ∧
    (merge_events events ids new_id true).length = events.length ∧
    (merge_events events ids new_id false).Perm
      (events ++ (events.filter (touchedRow ids)).map (relabelRow ids new_id)) ∧
    (merge_events events ids new_id false).length
      = events.length + (events.filter (touchedRow ids)).length ∧
    List.Sorted lexLe (merge_events events ids new_id false) := by
  have hperm : (merge_events events ids new_id false).Perm
      (events ++ (events.filter (touchedRow ids)).map (relabelRow ids new_id)) :=
    (List.perm_insertionSort lexLe _).trans (relabel_append_perm events ids new_id)
  refine ⟨rfl, by simp [merge_events], hperm, ?_, ?_⟩
  · simpa using hperm.length_eq
  · exact List.sorted_insertionSort lexLe _

/-- Claim C5 (amended): `pick_events`, `merge_events`, `shift_time_events`,
`define_target_events` and `concatenate_events` leave their input buffers
unchanged (each copies before writing); `_mask_trigs`, however, writes the
masked value columns back into its input in place, so after a call on a
nonempty list the caller's array holds the masked rows. -/
theorem c5_amended (events : List Step) (mask : Int) (ids : List Int)
    (new_id delta : Int) (replace_events stepFormat : Bool)
    (incl excl : Option (List Int)) (reference_id target_id imin imax : Int)
    (idOpt fill_na : Option Int) (evls : List (List Step))
    (first_samps last_samps : List Int) :
    (pickEventsState events incl excl stepFormat).1 = events ∧
    (mergeEventsState events ids new_id replace_events).1 = events ∧
    (shiftTimeEventsState events ids delta).1 = events ∧
    (defineTargetEventsState events reference_id target_id imin imax idOpt
      fill_na).1 = events ∧
    (concatenateEventsState evls first_samps last_samps).1 = evls ∧
    (maskTrigsState events mask).1
      = if events.length = 0 then events else events.map (maskRow mask) := by
  refine ⟨rfl, rfl, rfl, rfl, rfl, ?_⟩
  unfold maskTrigsState
  split <;> rfl

/-- Claim C5 (counterexample): `_mask_trigs` writes the masked value columns
back into its argument — after `_mask_trigs([[1,3,7]], 1)` the caller's array
holds `[[1,2,6]]`, not the original `[[1,3,7]]`. -/
theorem c5_counterexample :
    (maskTrigsState [⟨1, 3, 7⟩] 1).1 ≠ [⟨1, 3, 7⟩] := by
  decide

/-- Claim C6 (counterexample): the claim requires the masking stage to fail
on the negative mask `-1`, but `_mask_trigs` only checks
`isinstance(mask, int)`; with mask `-1` it completes normally (the
two's-complement `~(-1) = 0` wipes both value columns, so every transition
is dropped). -/
theorem c6_counterexample :
    _mask_trigs [⟨1, 3, 7⟩] (-1) = .ok [] := by
  decide

/-- Claim C6 (amended): for every integer mask — negative masks included —
`_mask_trigs` returns normally the list obtained by ANDing the
two's-complement bitwise complement of the mask into both value columns and
dropping every transition whose two values then coincide; the empty list maps
to the empty list. -/
theorem c6_amended (events : List Step) (mask : Int) :
    _mask_trigs events mask
      = .ok ((events.map (maskRow mask)).filter fun e => e.before != e.after) := by
  cases events <;> simp [_mask_trigs, maskTrigsBody]

/-- Claim C7 (counterexample): the event `[10, 5, 5]` (paired value equal to
its id, untouched by any documented legacy handling) does not survive a text
round-trip: `read_events` finishes with `_mask_trigs(events, 0)`, which drops
every row whose two value columns agree, so the list comes back empty. -/
theorem c7_counterexample :
    read_events_text (write_events_text [⟨10, 5, 5⟩]) ≠ .ok [⟨10, 5, 5⟩] := by
  decide

/-- ANDing with `f` low one-bits is the identity below `2 ^ f`. -/
theorem natAndF_allOnes : ∀ (f n : Nat), n < 2 ^ f → natAndF f n (2 ^ f - 1) = n := by
  intro f
  induction f with
  | zero => intro n hn; interval_cases n; rfl
  | succ f ih =>
    intro n hn
    have h2 : 2 ^ (f + 1) = 2 * 2 ^ f := by ring
    have hmod : (2 ^ (f + 1) - 1) % 2 = 1 := by omega
    have hdiv : (2 ^ (f + 1) - 1) / 2 = 2 ^ f - 1 := by omega
    have hlt : n / 2 < 2 ^ f := by omega
    unfold natAndF
    rw [hdiv, ih (n / 2) hlt]
    by_cases hp : n % 2 = 1
    · simp [hp, hmod]
      omega
    · simp [hp]
      omega

/-- With mask 0 the complement is all-ones and the int64 AND keeps any
in-range value. -/
theorem and64_not64_zero {x : Int} (h0 : 0 ≤ x) (h1 : x < 2 ^ 32) :
    and64 x (not64 0) = x := by
  have hu : u64 x = x.toNat := by
    unfold u64
    rw [Int.emod_eq_of_lt h0 (by omega)]
  have hm : u64 (not64 0) = 2 ^ 64 - 1 := by decide
  have hlt : x.toNat < 2 ^ 64 := by omega
  unfold and64
  rw [hu, hm, natAndF_allOnes 64 x.toNat hlt]
  rw [if_pos (by omega)]
  exact Int.toNat_of_nonneg h0

/-- Masking with 0 leaves an in-range row unchanged. -/
theorem maskRow_zero {e : Step}
    (hb0 : 0 ≤ e.before) (hb1 : e.before < 2 ^ 32)
    (ha0 : 0 ≤ e.after) (ha1 : e.after < 2 ^ 32) :
    maskRow 0 e = e := by
  unfold maskRow
  rw [and64_not64_zero hb0 hb1, and64_not64_zero ha0 ha1]

/-- Reading back a written three-column file, unfolded: cast the rows to
`uint32`, apply the sentinel drop, then `pick_events` and `_mask_trigs`. -/
theorem read3_write (r : Step) (rows : List Step) :
    read_events_text ((r :: rows).map fun e => [e.sample, e.before, e.after])
      = (let el := ((r :: rows).map fun e => [e.sample, e.before, e.after]).map fun l =>
            (⟨u32cast (l.getD 0 0), u32cast (l.getD 1 0), u32cast (l.getD 2 0)⟩ : Step);
         let el2 := if el.length > 0 ∧ (el.headD default).after = 0 then el.tail
            else el;
         match pick_events el2 none none false with
         | .error e => .error e
         | .ok el3 => _mask_trigs el3 0) := rfl

/-- Claim C7 (amended): a text round-trip reproduces the event list provided
that the list is nonempty, every entry fits in `uint32`, no row has its
paired value equal to its id (such rows are silently dropped by the final
`_mask_trigs(events, 0)` of `read_events`), and the first row's id is nonzero
(otherwise the sentinel-offset rule discards it). -/
theorem c7_amended (events : List Step) (hne : events ≠ [])
    (hrange : ∀ e ∈ events, 0 ≤ e.sample ∧ e.sample < 2 ^ 32 ∧
      0 ≤ e.before ∧ e.before < 2 ^ 32 ∧ 0 ≤ e.after ∧ e.after < 2 ^ 32)
    (hdeg : ∀ e ∈ events, e.before ≠ e.after)
    (hhead : (events.headD default).after ≠ 0) :
    read_events_text (write_events_text events) = .ok events := by
  obtain ⟨e0, rest, rfl⟩ := List.exists_cons_of_ne_nil hne
  have hel : (((e0 :: rest).map fun e => [e.sample, e.before, e.after]).map fun l =>
      (⟨u32cast (l.getD 0 0), u32cast (l.getD 1 0), u32cast (l.getD 2 0)⟩ : Step))
      = e0 :: rest := by
    rw [List.map_map]
    have hpt : ∀ e ∈ e0 :: rest,
        ((fun l => (⟨u32cast (l.getD 0 0), u32cast (l.getD 1 0),
            u32cast (l.getD 2 0)⟩ : Step)) ∘ fun e => [e.sample, e.before, e.after]) e
          = e := by
      intro e he
      obtain ⟨hs0, hs1, hb0, hb1, ha0, ha1⟩ := hrange e he
      simp only [Function.comp_apply, List.getD_cons_zero, List.getD_cons_succ]
      unfold u32cast
      rw [Int.emod_eq_of_lt hs0 hs1, Int.emod_eq_of_lt hb0 hb1,
        Int.emod_eq_of_lt ha0 ha1]
    rw [List.map_congr_left hpt, List.map_id']
  have hmask : maskTrigsBody (e0 :: rest) 0 = e0 :: rest := by
    unfold maskTrigsBody
    rw [if_neg (by simp)]
    have hpt2 : ∀ e ∈ e0 :: rest, maskRow 0 e = e := by
      intro e he
      obtain ⟨hs0, hs1, hb0, hb1, ha0, ha1⟩ := hrange e he
      exact maskRow_zero hb0 hb1 ha0 ha1
    rw [List.map_congr_left hpt2, List.map_id']
    rw [List.filter_eq_self.mpr]
    intro e he
    simpa [bne_iff_ne] using hdeg e he
  unfold write_events_text
  rw [read3_write]
  dsimp only
  rw [hel]
  rw [if_neg (by simpa using hhead)]
  unfold pick_events
  dsimp only
  rw [if_neg (by simp)]
  unfold _mask_trigs
  dsimp only
  rw [hmask]

/-- Witness for C7: the single event `[1, 2, 3]` survives the text
round-trip. -/
theorem c7_witness :
    read_events_text (write_events_text [⟨1, 2, 3⟩]) = .ok [⟨1, 2, 3⟩] :=
  c7_amended [⟨1, 2, 3⟩] (by decide) (by decide) (by decide) (by decide)

/-- Claim C8 (counterexample): with ten samples (`first_samp = 0`,
`last_samp = 9`), `start = 0`, default stop and a ten-sample interval, the
claim's bound — the last sample index truncated by one interval — leaves no
candidate index, so the claim demands a `ValueError`; the code instead stops
at `last_samp + 1` before truncating and happily returns the single event
`[0, 0, 5]`. -/
theorem c8_counterexample :
    claimFixedIndices 9 0 10 = [] ∧
    make_fixed_length_events 0 9 5 0 none 10 true = .ok [⟨0, 0, 5⟩] := by
  exact ⟨by decide, by decide⟩

/-- `arangeInt` membership: exactly the step multiples below the bound. -/
theorem mem_arangeInt {a b step t : Int} (h : 0 < step) :
    t ∈ arangeInt a b step ↔ ∃ k : Nat, t = a + (k : Int) * step ∧ t < b := by
  have key : ∀ k : Nat, k < ((b - a + step - 1) / step).toNat ↔ a + (k : Int) * step < b := by
    intro k
    rw [Int.lt_toNat]
    constructor
    · intro hk
      have h2 : ((k : Int) + 1) * step ≤ b - a + step - 1 :=
        (Int.le_ediv_iff_mul_le h).mp (by omega)
      rw [add_mul, one_mul] at h2
      linarith
    · intro hk
      have h2 : ((k : Int) + 1) ≤ (b - a + step - 1) / step := by
        apply (Int.le_ediv_iff_mul_le h).mpr
        rw [add_mul, one_mul]
        linarith
      omega
  rw [arangeInt, List.mem_map]
  constructor
  · rintro ⟨k, hk, rfl⟩
    rw [List.mem_range] at hk
    exact ⟨k, rfl, (key k).mp hk⟩
  · rintro ⟨k, rfl, hlt⟩
    exact ⟨k, List.mem_range.mpr ((key k).mpr hlt), rfl⟩

/-- `arangeInt` is empty exactly when the bound does not exceed the start. -/
theorem arangeInt_eq_nil_iff {a b step : Int} (h : 0 < step) :
    arangeInt a b step = [] ↔ b ≤ a := by
  simp only [arangeInt, List.map_eq_nil_iff, List.range_eq_nil, Int.toNat_eq_zero]
  constructor
  · intro hn
    by_contra hab
    have h1 : (1 : Int) * step ≤ b - a + step - 1 := by omega
    have h2 : (1 : Int) ≤ (b - a + step - 1) / step :=
      (Int.le_ediv_iff_mul_le h).mpr h1
    omega
  · intro hab
    by_contra hn
    have h1 : (1 : Int) ≤ (b - a + step - 1) / step := by omega
    have h2 := (Int.le_ediv_iff_mul_le h).mp h1
    omega

/-- An errored call contributes no rows. -/
theorem errToOptionGetD (e : EventError) :
    (Except.error e : Except EventError (List Step)).toOption.getD [] = [] := rfl

/-- A successful call contributes its rows. -/
theorem okToOptionGetD (l : List Step) :
    (Except.ok l : Except EventError (List Step)).toOption.getD [] = l := rfl

/-- Claim C8 (amended): `make_fixed_length_events` generates the sample
indices `start, start + interval, ...` with paired value 0 and the given id,
inclusively bounded by the effective stop — which defaults to
`last_samp + 1`, one PAST the recording's last sample index — truncated by
one interval, and it raises `ValueError` exactly when that index sequence is
empty. -/
theorem c8_amended (first_samp last_samp id start : Int) (stop? : Option Int)
    (interval : Int) (useFirstSamp : Bool) (hpos : 0 < interval) :
    (make_fixed_length_events first_samp last_samp id start stop? interval
        useFirstSamp = .error .emptySynthesis
      ↔ fixedStop first_samp last_samp stop? useFirstSamp - interval
          < fixedStart first_samp start useFirstSamp) ∧
    (∀ e ∈ (make_fixed_length_events first_samp last_samp id start stop? interval
        useFirstSamp).toOption.getD [], e.before = 0 ∧ e.after = id) ∧
    (∀ t : Int,
      t ∈ ((make_fixed_length_events first_samp last_samp id start stop? interval
          useFirstSamp).toOption.getD []).map Step.sample
        ↔ (∃ k : Nat,
            t = fixedStart first_samp start useFirstSamp + (k : Int) * interval)
            ∧ t ≤ fixedStop first_samp last_samp stop? useFirstSamp - interval) := by
  set A := fixedStart first_samp start useFirstSamp with hA
  set B := fixedStop first_samp last_samp stop? useFirstSamp with hB
  unfold make_fixed_length_events
  dsimp only
  rw [← hA, ← hB]
  by_cases hnil : arangeInt A (B - interval + 1) interval = []
  · have hle : B - interval + 1 ≤ A := (arangeInt_eq_nil_iff hpos).mp hnil
    rw [if_pos (by simp [hnil] :
      (arangeInt A (B - interval + 1) interval).length = 0)]
    refine ⟨⟨fun _ => by omega, fun _ => rfl⟩, ?_, ?_⟩
    · rw [errToOptionGetD]
      intro e he
      cases he
    · intro t
      rw [errToOptionGetD]
      simp only [List.map_nil, List.not_mem_nil, false_iff]
      rintro ⟨⟨k, rfl⟩, hle2⟩
      have hnn : (0 : Int) ≤ (k : Int) * interval :=
        mul_nonneg (by positivity) hpos.le
      omega
  · have hgt : ¬ (B - interval + 1 ≤ A) := fun hc =>
      hnil ((arangeInt_eq_nil_iff hpos).mpr hc)
    have hlen : ¬ (arangeInt A (B - interval + 1) interval).length = 0 := by
      simpa [List.length_eq_zero] using hnil
    rw [if_neg hlen]
    refine ⟨⟨fun hc => Except.noConfusion hc, fun hc => (hgt (by omega)).elim⟩, ?_, ?_⟩
    · rw [okToOptionGetD]
      intro e he
      obtain ⟨t, _, rfl⟩ := List.mem_map.mp he
      exact ⟨rfl, rfl⟩
    · intro t
      rw [okToOptionGetD, List.map_map]
      have hcomp : (Step.sample ∘ fun t => (⟨t, 0, id⟩ : Step))
          = fun (t : Int) => t := rfl
      rw [hcomp, List.map_id']
      rw [mem_arangeInt hpos]
      constructor
      · rintro ⟨k, rfl, hlt⟩
        exact ⟨⟨k, rfl⟩, by omega⟩
      · rintro ⟨⟨k, rfl⟩, hle2⟩
        exact ⟨k, rfl, by omega⟩

/-- Witness for C8: with 100 samples, start 0 and a ten-sample interval, the
index 30 is among the synthesized samples. -/
theorem c8_witness :
    (0 : Int) < 10 ∧
    (30 : Int) ∈ ((make_fixed_length_events 0 99 5 0 none 10 true).toOption.getD
      []).map Step.sample := by
  refine ⟨by decide, ?_⟩
  exact ((c8_amended 0 99 5 0 none 10 true (by decide)).2.2 30).mpr
    ⟨⟨3, by decide⟩, by decide⟩

/-- The first element kept by a filter is the first element found. -/
theorem head?_filter_eq_find? {α : Type} (p : α → Bool) :
    ∀ l : List α, (l.filter p).head? = l.find? p := by
  intro l
  induction l with
  | nil => rfl
  | cons a t ih =>
    by_cases h : p a <;> simp [List.filter_cons, List.find?_cons, h, ih]

/-- Claim C9 (amended): `define_target_events` relabels each reference-id
row matched by the FIRST target-id event strictly inside the open window
(formalized by the `find?` conjunct; a match additionally requires some
matched row to carry a nonzero entry, numpy `res.any()`), drops or
`fill_na`-relabels unmatched rows, and pairs each kept row with an absolute
lag (in samples; the published value is the positive scalar `1e3/sfreq`
times this) or a missing-lag `nan`.  Each returned list is either the loop's
parallel projection or — through the trailing `.any()` guards — emptied
wholesale: the two lists have equal length whenever both survive. -/
theorem c9_amended (events : List Step) (reference_id target_id imin imax : Int)
    (new_id fill_na : Option Int) :
    ((define_target_events events reference_id target_id imin imax new_id
        fill_na).1
        = (targetLoop events reference_id target_id imin imax
            (new_id.getD reference_id) fill_na).map Prod.fst
      ∨ (define_target_events events reference_id target_id imin imax new_id
          fill_na).1 = []) ∧
    ((define_target_events events reference_id target_id imin imax new_id
        fill_na).2
        = (targetLoop events reference_id target_id imin imax
            (new_id.getD reference_id) fill_na).map (fun p => p.2.map Int.natAbs)
      ∨ (define_target_events events reference_id target_id imin imax new_id
          fill_na).2 = []) ∧
    ((define_target_events events reference_id target_id imin imax new_id
        fill_na).1 ≠ [] →
      (define_target_events events reference_id target_id imin imax new_id
        fill_na).2 ≠ [] →
      (define_target_events events reference_id target_id imin imax new_id
          fill_na).1.length
        = (define_target_events events reference_id target_id imin imax new_id
            fill_na).2.length) ∧
    (∀ lower upper : Int, (targetMatch events target_id lower upper).head?
        = events.find? fun r =>
            decide (lower < r.sample) && (decide (r.sample < upper)
              && (r.after == target_id))) := by
  have hfind : ∀ lower upper : Int,
      (targetMatch events target_id lower upper).head?
        = events.find? fun r =>
            decide (lower < r.sample) && (decide (r.sample < upper)
              && (r.after == target_id)) := by
    intro lower upper
    exact head?_filter_eq_find? _ events
  unfold define_target_events
  dsimp only
  constructor
  · split <;> simp
  constructor
  · split <;> simp
  constructor
  · intro h1 h2
    split at h1 <;> split at h2 <;> simp_all
  · exact hfind

/-- Witness for C9: a matched reference event with a nonzero lag keeps the
two returned lists parallel. -/
theorem c9_witness :
    (define_target_events [⟨5, 0, 1⟩, ⟨8, 0, 2⟩] 1 2 0 5 none none).1.length
      = (define_target_events [⟨5, 0, 1⟩, ⟨8, 0, 2⟩] 1 2 0 5 none none).2.length :=
  (c9_amended [⟨5, 0, 1⟩, ⟨8, 0, 2⟩] 1 2 0 5 none none).2.2.1 (by decide)
    (by decide)

/-- Claim C9 (counterexample): on `events = [[5,0,1],[5,0,2]]` with
`reference_id = 1`, `target_id = 2` and window offsets `(-1, 1)`, the
reference event is matched with lag 0 and returned, but the final
`if lag.any()` guard sees only that zero lag and replaces the lag list by an
empty array — the returned lag list is not parallel to the returned events. -/
theorem c9_counterexample :
    define_target_events [⟨5, 0, 1⟩, ⟨5, 0, 2⟩] 1 2 (-1) 1 none none
        = ([⟨5, 0, 1⟩], []) ∧
    ([] : List (Option Nat)).length ≠ [Step.mk 5 0 1].length := by
  exact ⟨by decide, by decide⟩

/-- `getD` through a `map`, for an in-range index. -/
theorem getD_map_of_lt {α β : Type} (f : α → β) :
    ∀ (l : List α) (i : Nat) (d : β) (d0 : α), i < l.length →
      (l.map f).getD i d = f (l.getD i d0) := by
  intro l
  induction l with
  | nil => intro i d d0 h; cases h
  | cons a t ih =>
    intro i d d0 h
    cases i with
    | zero => rfl
    | succ i => exact ih i d d0 (by simpa using h)

/-- `getD` at an in-range index ignores the default. -/
theorem getD_default_irrel {α : Type} (l : List α) (i : Nat) (d d2 : α)
    (h : i < l.length) : l.getD i d = l.getD i d2 := by
  rw [List.getD_eq_getElem?_getD, List.getD_eq_getElem?_getD,
    List.getElem?_eq_getElem h]
  rfl

/-- The last element of a nonempty list by index. -/
theorem getLastD_eq_getD {α : Type} :
    ∀ (l : List α) (d : α), l ≠ [] → l.getLastD d = l.getD (l.length - 1) d := by
  intro l
  induction l with
  | nil => intro d h; exact absurd rfl h
  | cons a t ih =>
    intro d _
    cases t with
    | nil => rfl
    | cons b t2 =>
      rw [List.getLastD_cons, ih a (by simp)]
      simp only [List.length_cons, Nat.add_sub_cancel]
      rw [List.getD_cons_succ]
      exact getD_default_irrel _ _ _ _ (by simp)

/-- The last element of a nonempty list is a member. -/
theorem getD_last_mem {α : Type} :
    ∀ (l : List α) (d : α), l ≠ [] → l.getD (l.length - 1) d ∈ l := by
  intro l
  induction l with
  | nil => intro d h; exact absurd rfl h
  | cons a t ih =>
    intro d _
    cases t with
    | nil => simp
    | cons b t2 =>
      have hmem := ih d (by simp : (b :: t2 : List α) ≠ [])
      simp only [List.length_cons, Nat.add_sub_cancel] at hmem ⊢
      rw [List.getD_cons_succ]
      exact List.mem_cons_of_mem a hmem

/-- In a strictly increasing list every member is at most the last one. -/
theorem le_getD_last_of_pairwise :
    ∀ (l : List Nat), l.Pairwise (· < ·) → ∀ x ∈ l, x ≤ l.getD (l.length - 1) 0 := by
  intro l
  induction l with
  | nil => intro _ x hx; cases hx
  | cons a t ih =>
    intro hpw x hx
    rcases List.mem_cons.mp hx with rfl | hxt
    · cases t with
      | nil => simp
      | cons b t2 =>
        have hmem := getD_last_mem (b :: t2) 0 (by simp)
        have hlt := (List.pairwise_cons.mp hpw).1 _ hmem
        simp only [List.length_cons, Nat.add_sub_cancel]
        exact le_of_lt hlt
    · cases t with
      | nil => cases hxt
      | cons b t2 =>
        have := ih (List.pairwise_cons.mp hpw).2 x hxt
        simp only [List.length_cons, Nat.add_sub_cancel] at this ⊢
        exact this

/-- A block with no internal change is constant. -/
theorem suffix_const (ch : List Int) (i0 : Nat)
    (h : ∀ j, i0 < j → j + 1 < ch.length → ch.getD (j + 1) 0 = ch.getD j 0) :
    ∀ j, i0 < j → j < ch.length → ch.getD j 0 = ch.getD (i0 + 1) 0 := by
  intro j
  induction j with
  | zero => intro hij; omega
  | succ j ih =>
    intro hij hlen
    rcases Nat.lt_or_ge i0 j with hj | hj
    · rw [h j hj hlen]
      exact ih hj (by omega)
    · have hi : i0 = j := by omega
      subst hi
      rfl

/-- Membership in the change set of a single channel. -/
theorem stimChanges_single_mem {ch : List Int} {x : Nat} :
    x ∈ stimChanges [ch] ↔ x < ch.length - 1 ∧ ch.getD (x + 1) 0 ≠ ch.getD x 0 := by
  unfold stimChanges
  simp [List.mem_filter, List.mem_range, bne_iff_ne, and_comm]

/-- On a single channel, the value after the last detected transition is
the channel's final value (the channel is constant past its last change). -/
theorem lastDetected_after (ch : List Int) (fs : Int)
    (hne : stimChanges [ch] ≠ []) :
    ((detectedSteps [ch] fs).getLastD default).after = ch.getLastD 0 := by
  set sc := stimChanges [ch] with hsc
  set n := ch.length with hn
  set istar := sc.getD (sc.length - 1) 0 with histar
  have hipw : sc.Pairwise (· < ·) := by
    rw [hsc]
    unfold stimChanges
    exact (List.pairwise_lt_range _).filter _
  have himem : istar ∈ sc := getD_last_mem sc 0 hne
  have hibound := (stimChanges_single_mem.mp himem).1
  have hn2 : 2 ≤ n := by omega
  have hmax : ∀ x ∈ sc, x ≤ istar := le_getD_last_of_pairwise sc hipw
  have hnochange : ∀ j, istar < j → j + 1 < n → ch.getD (j + 1) 0 = ch.getD j 0 := by
    intro j hj hlen
    by_contra hne2
    have hjin : j ∈ sc := stimChanges_single_mem.mpr ⟨by omega, hne2⟩
    exact absurd (hmax j hjin) (by omega)
  have hconst := suffix_const ch istar hnochange (n - 1) (by omega) (by omega)
  have hlast : ch.getLastD 0 = ch.getD (n - 1) 0 :=
    getLastD_eq_getD ch 0 (by intro hc; rw [hc] at hn; simp at hn; omega)
  have hmap : ((detectedSteps [ch] fs).getLastD default).after = ch.getD (istar + 1) 0 := by
    unfold detectedSteps
    rw [getLastD_eq_getD _ _ (by simpa [detectedSteps] using hne)]
    simp only [List.length_map]
    rw [getD_map_of_lt _ sc (sc.length - 1) default 0 (by
      have : sc ≠ [] := hne
      have : 0 < sc.length := List.length_pos.mpr this
      omega)]
    rfl
  rw [hmap, hlast, hconst]

/-- Claim C10 (amended): `_find_events` calls the step detector with
`pad_stop=0` and no `pad_start`, so — PROVIDED the channel shows at least one
change (an entirely change-free channel returns early with no rows, padding
included) — a channel whose final value is nonzero gets a synthetic
transition from that value to 0 appended at `len(data) + first_samp`, and
nothing synthetic is prepended for a nonzero initial value. -/
theorem c10_amended (ch : List Int) (fs : Int)
    (hchg : stimChanges [ch] ≠ []) (hlast : ch.getLastD 0 ≠ 0) :
    _find_stim_steps [ch] fs none (some 0) 0
      = detectedSteps [ch] fs ++ [⟨(ch.length : Int) + fs, ch.getLastD 0, 0⟩] := by
  unfold _find_stim_steps
  rw [if_neg (by simpa [List.length_eq_zero] using hchg)]
  dsimp only
  rw [lastDetected_after ch fs hchg]
  rw [if_pos hlast]
  unfold mergeSteps
  rw [if_pos rfl]
  rfl

/-- Witness for C10: the channel `[0, 5]` ends nonzero and gets the
synthetic offset `[2, 5, 0]` appended after its one detected onset. -/
theorem c10_witness :
    stimChanges [[0, 5]] ≠ [] ∧ ([0, 5] : List Int).getLastD 0 ≠ 0 ∧
    _find_stim_steps [[0, 5]] 0 none (some 0) 0
      = detectedSteps [[0, 5]] 0 ++ [⟨2, 5, 0⟩] := by
  refine ⟨by decide, by decide, ?_⟩
  exact (c10_amended [0, 5] 0 (by decide) (by decide)).trans (by decide)

/-- Claim C10 (counterexample): on the constant nonzero channel `[5, 5]`
(final sample nonzero) the detector finds no change and returns early with an
empty list — no synthetic transition `[2, 5, 0]` is appended. -/
theorem c10_counterexample :
    Step.mk 2 5 0 ∉ _find_stim_steps [[5, 5]] 0 none (some 0) 0 := by
  decide

end MneEvent
